import Mathlib

/-!
# Verification of the `module-sales` point-of-sale core

A shallow embedding of the sales module's data model and operations:

* `Decimal` arithmetic is modelled exactly over `ℚ`; `quantize(Decimal('0.01'))`
  (Python's default `ROUND_HALF_EVEN`) is modelled by `round2`.
* `SaleItem.save` (per-line tax/discount computation) is `saveItem`.
* `Sale.calculate_totals` (aggregation and tax breakdown) is `calculate_totals`.
* The document-number generation in `Sale.save` / `ParkedTicket.save` is
  `nextNumber`, over the list of already stored numbers; document numbers are
  modelled as `String`s with the database's binary (code-point) collation
  modelled by `lexLt`.
* `CashRegister.calculate_expected_amount` / `close_register` are
  `calculate_expected_amount` / `close_register`.
* The per-line stock update of the `complete_sale` view is `processLine`.
-/

namespace ModuleSales

/-! ## Decimal model: exact rationals plus 2-place half-even quantization -/

/-- `Decimal.quantize(Decimal('0.01'))` rounding step on the scaled value:
round a rational to the nearest integer, ties to even
(Python's default `ROUND_HALF_EVEN`). -/
def roundHalfEven (q : ℚ) : ℤ :=
  let f := ⌊q⌋
  let r := q - (f : ℚ)
  if r < 1/2 then f
  else if 1/2 < r then f + 1
  else if f % 2 = 0 then f else f + 1

/-- `x.quantize(Decimal('0.01'))`: quantize to two decimal places. -/
def round2 (q : ℚ) : ℚ := (roundHalfEven (q * 100) : ℚ) / 100

/-- A rational that is an exact number of cents (two decimal places). -/
def IsCents (q : ℚ) : Prop := ∃ z : ℤ, q = (z : ℚ) / 100

theorem isCents_round2 (q : ℚ) : IsCents (round2 q) :=
  ⟨roundHalfEven (q * 100), rfl⟩

theorem roundHalfEven_intCast (z : ℤ) : roundHalfEven (z : ℚ) = z := by
  unfold roundHalfEven
  rw [Int.floor_intCast]
  norm_num

theorem round2_eq_self {q : ℚ} (h : IsCents q) : round2 q = q := by
  obtain ⟨z, rfl⟩ := h
  unfold round2
  have h100 : ((z : ℚ) / 100) * 100 = (z : ℚ) := by
    field_simp
  rw [h100, roundHalfEven_intCast]

theorem IsCents.add {a b : ℚ} (ha : IsCents a) (hb : IsCents b) : IsCents (a + b) := by
  obtain ⟨x, rfl⟩ := ha
  obtain ⟨y, rfl⟩ := hb
  exact ⟨x + y, by push_cast; ring⟩

theorem IsCents.sub {a b : ℚ} (ha : IsCents a) (hb : IsCents b) : IsCents (a - b) := by
  obtain ⟨x, rfl⟩ := ha
  obtain ⟨y, rfl⟩ := hb
  exact ⟨x - y, by push_cast; ring⟩

/-! ## Tax engine: `SaleItem.save` (src/models.py:357-383) -/

/-- The three computed monetary fields of a sale line. -/
structure LineResult where
  net_amount : ℚ
  tax_amount : ℚ
  line_total : ℚ
  deriving DecidableEq, Repr

/-- `SaleItem.save`: compute `net_amount`, `tax_amount`, `line_total` from
`unit_price`, `quantity`, `discount_percent`, `tax_rate` and the store-wide
`tax_included` flag, exactly as src/models.py lines 357-383. -/
def saveItem (tax_included : Bool) (unit_price quantity discount_percent tax_rate : ℚ) :
    LineResult :=
  let discount_amount := unit_price * (discount_percent / 100)
  let discounted_price := unit_price - discount_amount
  if tax_included then
    let tax_divisor := 1 + tax_rate / 100
    let net_unit := discounted_price / tax_divisor
    let net := round2 (net_unit * quantity)
    let lt := round2 (discounted_price * quantity)
    let tax := round2 (lt - net)
    ⟨net, tax, lt⟩
  else
    let net := round2 (discounted_price * quantity)
    let tax := round2 (net * (tax_rate / 100))
    let lt := round2 (net + tax)
    ⟨net, tax, lt⟩

theorem saveItem_true_def (up q dp tr : ℚ) :
    saveItem true up q dp tr =
      ⟨round2 ((up - up * (dp / 100)) / (1 + tr / 100) * q),
       round2 (round2 ((up - up * (dp / 100)) * q) -
         round2 ((up - up * (dp / 100)) / (1 + tr / 100) * q)),
       round2 ((up - up * (dp / 100)) * q)⟩ := rfl

theorem saveItem_false_def (up q dp tr : ℚ) :
    saveItem false up q dp tr =
      ⟨round2 ((up - up * (dp / 100)) * q),
       round2 (round2 ((up - up * (dp / 100)) * q) * (tr / 100)),
       round2 (round2 ((up - up * (dp / 100)) * q) +
         round2 (round2 ((up - up * (dp / 100)) * q) * (tr / 100)))⟩ := rfl

end ModuleSales

namespace ModuleSales

/-- Claim C1: For a line with unit price ≥ 0, quantity ≥ 0, discount percent in [0,100]
and tax rate ≥ 0, `SaleItem.save` computes
`discountedPrice = unitPrice * (1 - discountPercent/100)`; with the store-wide
`taxIncluded` flag true it stores
`netAmount = round2((discountedPrice / (1 + taxRate/100)) * quantity)`,
`lineTotal = round2(discountedPrice * quantity)` and
`taxAmount = round2(lineTotal - netAmount)`; with the flag false it stores
`netAmount = round2(discountedPrice * quantity)`,
`taxAmount = round2(netAmount * taxRate/100)` and
`lineTotal = round2(netAmount + taxAmount)`. -/
theorem saveItem_matches_spec_formulas (up q dp tr : ℚ)
    (h1 : 0 ≤ up) (h2 : 0 ≤ q) (h3 : 0 ≤ dp) (h4 : dp ≤ 100) (h5 : 0 ≤ tr) :
    ((saveItem true up q dp tr).net_amount
        = round2 (up * (1 - dp / 100) / (1 + tr / 100) * q)
      ∧ (saveItem true up q dp tr).line_total = round2 (up * (1 - dp / 100) * q)
      ∧ (saveItem true up q dp tr).tax_amount
        = round2 ((saveItem true up q dp tr).line_total
            - (saveItem true up q dp tr).net_amount))
    ∧ ((saveItem false up q dp tr).net_amount = round2 (up * (1 - dp / 100) * q)
      ∧ (saveItem false up q dp tr).tax_amount
        = round2 ((saveItem false up q dp tr).net_amount * (tr / 100))
      ∧ (saveItem false up q dp tr).line_total
        = round2 ((saveItem false up q dp tr).net_amount
            + (saveItem false up q dp tr).tax_amount)) := by
  have hd : up - up * (dp / 100) = up * (1 - dp / 100) := by ring
  constructor
  · refine ⟨?_, ?_, ?_⟩
    · rw [saveItem_true_def]; rw [hd]
    · rw [saveItem_true_def]; rw [hd]
    · rw [saveItem_true_def]
  · refine ⟨?_, ?_, ?_⟩
    · rw [saveItem_false_def]; rw [hd]
    · rw [saveItem_false_def]
    · rw [saveItem_false_def]

/-- Witness for C1 at the spec's own example: unit price 12.10, quantity 1,
no discount, tax rate 21, tax-inclusive. -/
theorem saveItem_matches_spec_formulas_witness :
    (0 ≤ (121/10 : ℚ) ∧ 0 ≤ (1 : ℚ) ∧ 0 ≤ (0 : ℚ) ∧ (0 : ℚ) ≤ 100 ∧ 0 ≤ (21 : ℚ))
    ∧ (saveItem true (121/10) 1 0 21).net_amount
        = round2 ((121/10) * (1 - 0 / 100) / (1 + 21 / 100) * 1) :=
  ⟨⟨by norm_num, by norm_num, by norm_num, by norm_num, by norm_num⟩,
    (saveItem_matches_spec_formulas (121/10) 1 0 21 (by norm_num) (by norm_num)
      (by norm_num) (by norm_num) (by norm_num)).1.1⟩

/-- Claim C2: For every saved line item, in both tax-inclusive and tax-exclusive mode,
the stored fields satisfy `line_total = net_amount + tax_amount` exactly. -/
theorem saveItem_line_total_reconciles (ti : Bool) (up q dp tr : ℚ) :
    (saveItem ti up q dp tr).line_total
      = (saveItem ti up q dp tr).net_amount + (saveItem ti up q dp tr).tax_amount := by
  cases ti
  · rw [saveItem_false_def]
    exact round2_eq_self ((isCents_round2 _).add (isCents_round2 _))
  · rw [saveItem_true_def]
    have h : round2 (round2 ((up - up * (dp / 100)) * q) -
        round2 ((up - up * (dp / 100)) / (1 + tr / 100) * q))
        = round2 ((up - up * (dp / 100)) * q) -
          round2 ((up - up * (dp / 100)) / (1 + tr / 100) * q) :=
      round2_eq_self ((isCents_round2 _).sub (isCents_round2 _))
    rw [h]
    ring

end ModuleSales

namespace ModuleSales

/-! ## Document numbering: `Sale.save` (src/models.py:209-225) and
`ParkedTicket.save` (src/models.py:485-506)

Document numbers are strings `"{prefix}-{dateKey}-{seq:04d}"`.  The database
returns `order_by('-number').first()` under binary collation, modelled by the
code-point lexicographic order `lexLt`; `split('-')[-1]` is `afterLastDash`;
`int(...)` on a digit string is `parseNat`; `f'{n:04d}'` is `fmt4`. -/

/-- The character for a single decimal digit. -/
def digitChar (d : ℕ) : Char :=
  match d with
  | 0 => '0' | 1 => '1' | 2 => '2' | 3 => '3' | 4 => '4'
  | 5 => '5' | 6 => '6' | 7 => '7' | 8 => '8' | 9 => '9'
  | _ => '*'

/-- Decimal digits of `n`, most significant first (`fuel`-bounded recursion;
called with `fuel > n`). -/
def digitsGo : ℕ → ℕ → List Char
  | 0, _ => []
  | fuel + 1, n =>
    if n < 10 then [digitChar n] else digitsGo fuel (n / 10) ++ [digitChar (n % 10)]

/-- Decimal digits of `n`, most significant first. -/
def natDigits (n : ℕ) : List Char := digitsGo (n + 1) n

/-- Python `f'{n:04d}'`: decimal digits zero-padded on the left to width 4. -/
def fmt4 (n : ℕ) : String :=
  ⟨List.replicate (4 - (natDigits n).length) '0' ++ natDigits n⟩

/-- Python `int(...)` on a string of decimal digits. -/
def parseNat : List Char → ℕ
  | [] => 0
  | c :: cs => (c.toNat - 48) * 10 ^ cs.length + parseNat cs

/-- Python `s.split('-')[-1]`: the segment after the last dash
(the whole string when there is no dash). -/
def afterLastDash (cs : List Char) : List Char :=
  cs.foldl (fun acc c => if c = '-' then [] else acc ++ [c]) []

/-- `int(number.split('-')[-1])`: the parsed trailing numeric suffix. -/
def parseTrailing (s : String) : ℕ := parseNat (afterLastDash s.data)

/-- Django's `field__startswith` filter. -/
def startsWithB : List Char → List Char → Bool
  | _, [] => true
  | [], _ :: _ => false
  | c :: cs, p :: ps => if c = p then startsWithB cs ps else false

/-- Code-point lexicographic order on character lists: the database's binary
collation used by `order_by('-sale_number')`. -/
def lexLt : List Char → List Char → Bool
  | [], [] => false
  | [], _ :: _ => true
  | _ :: _, [] => false
  | a :: as, b :: bs =>
    if a.toNat < b.toNat then true
    else if a.toNat = b.toNat then lexLt as bs
    else false

/-- `order_by('-number').first()`: the lexicographically greatest element. -/
def maxOfList (l : List String) : Option String :=
  match l with
  | [] => none
  | s :: rest => some (rest.foldl (fun a b => if lexLt a.data b.data then b else a) s)

/-- The number-generation step shared by `Sale.save` and `ParkedTicket.save`:
filter existing numbers by the day's prefix, take the lexicographically
greatest, parse its trailing suffix and add one (1 when none exists). -/
def nextNumber (existing : List String) (pfx dateKey : String) : String :=
  match maxOfList (existing.filter
      (fun s => startsWithB s.data (pfx ++ "-" ++ dateKey).data)) with
  | none => pfx ++ "-" ++ dateKey ++ "-" ++ fmt4 1
  | some last => pfx ++ "-" ++ dateKey ++ "-" ++ fmt4 (parseTrailing last + 1)

/-! ### Order lemmas for `lexLt` -/

theorem charToNat_inj {a b : Char} (h : a.toNat = b.toNat) : a = b :=
  Char.eq_of_val_eq (UInt32.eq_of_val_eq (Fin.eq_of_val_eq h))

theorem lexLt_irrefl : ∀ a : List Char, lexLt a a = false
  | [] => rfl
  | c :: cs => by simp [lexLt, lexLt_irrefl cs]

theorem lexLt_trans : ∀ a b c : List Char,
    lexLt a b = true → lexLt b c = true → lexLt a c = true
  | [], [], _, h1, _ => by simp [lexLt] at h1
  | [], _ :: _, [], _, h2 => by simp [lexLt] at h2
  | [], _ :: _, _ :: _, _, _ => rfl
  | _ :: _, [], _, h1, _ => by simp [lexLt] at h1
  | _ :: _, _ :: _, [], _, h2 => by simp [lexLt] at h2
  | x :: xs, y :: ys, z :: zs, h1, h2 => by
    simp only [lexLt] at h1 h2 ⊢
    split_ifs at h1 h2 ⊢ with hxy hxy2 hyz hyz2 hxz hxz2 <;>
      first
        | rfl
        | omega
        | (exact lexLt_trans xs ys zs (by assumption) (by assumption))

theorem lexLt_asymm_eq : ∀ a b : List Char,
    lexLt a b = false → lexLt b a = false → a = b
  | [], [], _, _ => rfl
  | [], _ :: _, h1, _ => by simp [lexLt] at h1
  | _ :: _, [], _, h2 => by simp [lexLt] at h2
  | x :: xs, y :: ys, h1, h2 => by
    simp only [lexLt] at h1 h2
    by_cases hlt : x.toNat < y.toNat
    · simp [hlt] at h1
    · by_cases hgt : y.toNat < x.toNat
      · simp [hgt] at h2
      · have heq : x.toNat = y.toNat := by omega
        rw [if_neg hlt, if_pos heq] at h1
        rw [if_neg hgt, if_pos heq.symm] at h2
        rw [charToNat_inj heq, lexLt_asymm_eq xs ys h1 h2]

theorem lexLt_total {a b : List Char} (h : lexLt a b = false) :
    lexLt b a = true ∨ a = b := by
  by_cases h2 : lexLt b a = true
  · exact Or.inl h2
  · exact Or.inr (lexLt_asymm_eq a b h (by simpa using h2))

theorem lexLt_append_left : ∀ x a b : List Char,
    lexLt (x ++ a) (x ++ b) = lexLt a b
  | [], _, _ => rfl
  | c :: x, a, b => by simp [lexLt, lexLt_append_left x a b]

end ModuleSales

namespace ModuleSales

/-! ### The lexicographic maximum returned by `order_by('-number').first()` -/

/-- One fold step of taking the greater of two strings. -/
def maxStep (a b : String) : String := if lexLt a.data b.data then b else a

theorem maxOfList_eq_foldl (s : String) (rest : List String) :
    maxOfList (s :: rest) = some (rest.foldl maxStep s) := rfl

theorem stringDataInj {s t : String} (h : s.data = t.data) : s = t := by
  cases s; cases t; simp_all

theorem foldl_maxStep_mem : ∀ (l : List String) (a : String),
    l.foldl maxStep a = a ∨ l.foldl maxStep a ∈ l
  | [], _ => Or.inl rfl
  | b :: l, a => by
    rcases foldl_maxStep_mem l (maxStep a b) with h | h
    · rw [List.foldl_cons, h]
      unfold maxStep
      split_ifs
      · exact Or.inr (List.mem_cons_self _ _)
      · exact Or.inl rfl
    · exact Or.inr (List.mem_cons_of_mem _ (by rwa [List.foldl_cons]))

theorem foldl_maxStep_ub : ∀ (l : List String) (a : String),
    lexLt (l.foldl maxStep a).data a.data = false
      ∧ ∀ s ∈ l, lexLt (l.foldl maxStep a).data s.data = false
  | [], a => ⟨lexLt_irrefl a.data, by simp⟩
  | b :: l, a => by
    obtain ⟨hub, hall⟩ := foldl_maxStep_ub l (maxStep a b)
    rw [List.foldl_cons]
    set r := l.foldl maxStep (maxStep a b) with hr
    by_cases hab : lexLt a.data b.data = true
    · have hb : maxStep a b = b := by unfold maxStep; rw [if_pos hab]
      rw [hb] at hub
      refine ⟨?_, fun s hs => ?_⟩
      · -- not r < a: from not r < b and a < b
        by_cases hra : lexLt r.data a.data = true
        · exact absurd (lexLt_trans _ _ _ hra hab) (by simp [hb, hub])
        · simpa using hra
      · rcases List.mem_cons.mp hs with rfl | hs
        · exact hub
        · exact hall s hs
    · have ha : maxStep a b = a := by
        unfold maxStep; rw [if_neg (by simpa using hab)]
      rw [ha] at hub
      refine ⟨hub, fun s hs => ?_⟩
      rcases List.mem_cons.mp hs with rfl | hs
      · -- not r < s where not a < s and not r < a
        rcases lexLt_total (a := a.data) (b := s.data) (by simpa using hab) with hlt | heq
        · by_cases hrs : lexLt r.data s.data = true
          · exact absurd (lexLt_trans _ _ _ hrs hlt) (by simp [hub])
          · simpa using hrs
        · rw [← heq]; exact hub
      · exact hall s hs

theorem maxOfList_spec {l : List String} {m : String} (h : maxOfList l = some m) :
    m ∈ l ∧ ∀ s ∈ l, lexLt m.data s.data = false := by
  match l with
  | [] => simp [maxOfList] at h
  | s :: rest =>
    rw [maxOfList_eq_foldl] at h
    obtain rfl : rest.foldl maxStep s = m := by injection h
    obtain ⟨hub, hall⟩ := foldl_maxStep_ub rest s
    constructor
    · rcases foldl_maxStep_mem rest s with h | h
      · rw [h]; exact List.mem_cons_self _ _
      · exact List.mem_cons_of_mem _ h
    · intro t ht
      rcases List.mem_cons.mp ht with rfl | ht
      · exact hub
      · exact hall t ht

/-- A list member that is an upper bound is the `maxOfList`. -/
theorem maxOfList_unique {l : List String} {m : String}
    (hm : m ∈ l) (hub : ∀ s ∈ l, lexLt m.data s.data = false) :
    maxOfList l = some m := by
  match l with
  | [] => simp at hm
  | s :: rest =>
    rw [maxOfList_eq_foldl]
    obtain ⟨hub2, hall2⟩ := foldl_maxStep_ub rest s
    have hmem : rest.foldl maxStep s ∈ s :: rest := by
      rcases foldl_maxStep_mem rest s with h | h
      · rw [h]; exact List.mem_cons_self _ _
      · exact List.mem_cons_of_mem _ h
    have h1 : lexLt m.data (rest.foldl maxStep s).data = false := hub _ hmem
    have h2 : lexLt (rest.foldl maxStep s).data m.data = false := by
      rcases List.mem_cons.mp hm with rfl | hm'
      · exact hub2
      · exact hall2 _ hm'
    rw [stringDataInj (lexLt_asymm_eq _ _ h2 h1)]

end ModuleSales

namespace ModuleSales

/-! ### Digit strings: formatting and parsing -/

/-- A character that is a decimal digit. -/
def IsDigitCh (c : Char) : Prop := 48 ≤ c.toNat ∧ c.toNat ≤ 57

instance (c : Char) : Decidable (IsDigitCh c) := by
  unfold IsDigitCh
  infer_instance

theorem digitChar_toNat {d : ℕ} (h : d < 10) : (digitChar d).toNat = 48 + d := by
  interval_cases d <;> rfl

theorem isDigitCh_digitChar {d : ℕ} (h : d < 10) : IsDigitCh (digitChar d) := by
  constructor <;> rw [digitChar_toNat h] <;> omega

theorem parseNat_append_singleton (xs : List Char) (c : Char) :
    parseNat (xs ++ [c]) = 10 * parseNat xs + (c.toNat - 48) := by
  induction xs with
  | nil => simp [parseNat]
  | cons d xs ih =>
    rw [List.cons_append]
    rw [show parseNat (d :: (xs ++ [c]))
        = (d.toNat - 48) * 10 ^ (xs ++ [c]).length + parseNat (xs ++ [c]) from rfl]
    rw [ih, List.length_append, List.length_singleton]
    rw [show parseNat (d :: xs) = (d.toNat - 48) * 10 ^ xs.length + parseNat xs from rfl]
    rw [pow_succ]
    ring

theorem digitsGo_parse : ∀ fuel n, n < fuel → parseNat (digitsGo fuel n) = n := by
  intro fuel
  induction fuel with
  | zero => omega
  | succ fuel ih =>
    intro n hn
    by_cases h10 : n < 10
    · simp only [digitsGo, if_pos h10, parseNat, List.length_nil, pow_zero]
      rw [digitChar_toNat h10]
      omega
    · have hdiv : n / 10 < n := Nat.div_lt_self (by omega) (by omega)
      simp only [digitsGo, if_neg h10]
      rw [parseNat_append_singleton, ih (n / 10) (by omega),
        digitChar_toNat (Nat.mod_lt n (by omega))]
      omega

theorem digitsGo_digits : ∀ fuel n, n < fuel → ∀ c ∈ digitsGo fuel n, IsDigitCh c := by
  intro fuel
  induction fuel with
  | zero => omega
  | succ fuel ih =>
    intro n hn c hc
    by_cases h10 : n < 10
    · simp only [digitsGo, if_pos h10, List.mem_singleton] at hc
      rw [hc]; exact isDigitCh_digitChar h10
    · have hdiv : n / 10 < n := Nat.div_lt_self (by omega) (by omega)
      simp only [digitsGo, if_neg h10, List.mem_append, List.mem_singleton] at hc
      rcases hc with hc | hc
      · exact ih (n / 10) (by omega) c hc
      · rw [hc]; exact isDigitCh_digitChar (Nat.mod_lt n (by omega))

theorem digitsGo_length_le : ∀ fuel n e, n < fuel → n < 10 ^ e → 1 ≤ e →
    (digitsGo fuel n).length ≤ e := by
  intro fuel
  induction fuel with
  | zero => omega
  | succ fuel ih =>
    intro n e hn he h1
    by_cases h10 : n < 10
    · simp only [digitsGo, if_pos h10, List.length_singleton]
      omega
    · have hdiv : n / 10 < n := Nat.div_lt_self (by omega) (by omega)
      have he2 : 2 ≤ e := by
        by_contra h
        have : e = 1 := by omega
        rw [this, pow_one] at he
        omega
      simp only [digitsGo, if_neg h10, List.length_append, List.length_singleton]
      have : n / 10 < 10 ^ (e - 1) := by
        rw [Nat.div_lt_iff_lt_mul (by omega)]
        calc n < 10 ^ e := he
          _ = 10 ^ (e - 1) * 10 := by
            rw [← pow_succ]
            congr 1
            omega
      have := ih (n / 10) (e - 1) (by omega) this (by omega)
      omega

theorem natDigits_parse (n : ℕ) : parseNat (natDigits n) = n :=
  digitsGo_parse (n + 1) n (Nat.lt_succ_self n)

theorem natDigits_digits (n : ℕ) : ∀ c ∈ natDigits n, IsDigitCh c :=
  digitsGo_digits (n + 1) n (Nat.lt_succ_self n)

theorem natDigits_length_le {n e : ℕ} (he : n < 10 ^ e) (h1 : 1 ≤ e) :
    (natDigits n).length ≤ e :=
  digitsGo_length_le (n + 1) n e (Nat.lt_succ_self n) he h1

theorem parseNat_replicate_zero : ∀ (j : ℕ) (ds : List Char),
    parseNat (List.replicate j '0' ++ ds) = parseNat ds := by
  intro j
  induction j with
  | zero => intro ds; rfl
  | succ j ih =>
    intro ds
    rw [List.replicate_succ, List.cons_append]
    rw [show parseNat ('0' :: (List.replicate j '0' ++ ds))
        = ('0'.toNat - 48) * 10 ^ (List.replicate j '0' ++ ds).length
          + parseNat (List.replicate j '0' ++ ds) from rfl]
    rw [ih ds, show '0'.toNat = 48 from rfl]
    simp

theorem fmt4_data (n : ℕ) :
    (fmt4 n).data = List.replicate (4 - (natDigits n).length) '0' ++ natDigits n := rfl

theorem fmt4_parse (n : ℕ) : parseNat (fmt4 n).data = n := by
  rw [fmt4_data, parseNat_replicate_zero, natDigits_parse]

theorem fmt4_digits (n : ℕ) : ∀ c ∈ (fmt4 n).data, IsDigitCh c := by
  intro c hc
  rw [fmt4_data] at hc
  rcases List.mem_append.mp hc with hc | hc
  · rw [List.eq_of_mem_replicate hc]
    exact ⟨by decide, by decide⟩
  · exact natDigits_digits n c hc

theorem fmt4_length {n : ℕ} (h : n ≤ 9999) : (fmt4 n).data.length = 4 := by
  rw [fmt4_data, List.length_append, List.length_replicate]
  have : (natDigits n).length ≤ 4 := natDigits_length_le (by omega) (by omega)
  omega

theorem isDigitCh_ne_dash {c : Char} (h : IsDigitCh c) : c ≠ '-' := by
  intro hc
  rw [hc] at h
  exact absurd h (by decide)

theorem parseNat_lt : ∀ cs : List Char, (∀ c ∈ cs, IsDigitCh c) →
    parseNat cs < 10 ^ cs.length := by
  intro cs
  induction cs with
  | nil => intro _; norm_num [parseNat]
  | cons c cs ih =>
    intro h
    obtain ⟨hc1, hc2⟩ : IsDigitCh c := h c (List.mem_cons_self _ _)
    have hcs := ih (fun d hd => h d (List.mem_cons_of_mem _ hd))
    simp only [parseNat, List.length_cons]
    calc (c.toNat - 48) * 10 ^ cs.length + parseNat cs
        < (c.toNat - 48) * 10 ^ cs.length + 10 ^ cs.length := Nat.add_lt_add_left hcs _
      _ = (c.toNat - 48 + 1) * 10 ^ cs.length := by ring
      _ ≤ 10 * 10 ^ cs.length := Nat.mul_le_mul_right _ (by omega)
      _ = 10 ^ (cs.length + 1) := by rw [pow_succ]; ring

/-- On equal-length digit strings, code-point lexicographic order coincides
with numeric order of the parsed values. -/
theorem lexLt_digits_iff : ∀ a b : List Char, a.length = b.length →
    (∀ c ∈ a, IsDigitCh c) → (∀ c ∈ b, IsDigitCh c) →
    (lexLt a b = true ↔ parseNat a < parseNat b) := by
  intro a
  induction a with
  | nil =>
    intro b hlen _ _
    obtain rfl : b = [] := List.eq_nil_of_length_eq_zero hlen.symm
    simp [lexLt, parseNat]
  | cons x xs ih =>
    intro b hlen ha hb
    match b with
    | [] => simp at hlen
    | y :: ys =>
      have hlen2 : xs.length = ys.length := by
        simpa using hlen
      obtain ⟨hx1, hx2⟩ : IsDigitCh x := ha x (List.mem_cons_self _ _)
      obtain ⟨hy1, hy2⟩ : IsDigitCh y := hb y (List.mem_cons_self _ _)
      have hxs := fun c hc => ha c (List.mem_cons_of_mem _ hc)
      have hys := fun c hc => hb c (List.mem_cons_of_mem _ hc)
      have hpx : parseNat xs < 10 ^ xs.length := parseNat_lt xs hxs
      have hpy : parseNat ys < 10 ^ ys.length := parseNat_lt ys hys
      simp only [lexLt, parseNat, List.length_cons, hlen2]
      by_cases hlt : x.toNat < y.toNat
      · rw [if_pos hlt]
        simp only [true_iff]
        calc (x.toNat - 48) * 10 ^ ys.length + parseNat xs
            < (x.toNat - 48) * 10 ^ ys.length + 10 ^ ys.length :=
              Nat.add_lt_add_left (hlen2 ▸ hpx) _
          _ = (x.toNat - 48 + 1) * 10 ^ ys.length := by ring
          _ ≤ (y.toNat - 48) * 10 ^ ys.length := Nat.mul_le_mul_right _ (by omega)
          _ ≤ (y.toNat - 48) * 10 ^ ys.length + parseNat ys := Nat.le_add_right _ _
      · rw [if_neg hlt]
        by_cases heq : x.toNat = y.toNat
        · rw [if_pos heq, heq]
          rw [ih ys hlen2 hxs hys]
          exact (add_lt_add_iff_left _).symm
        · rw [if_neg heq]
          have hyx : (y.toNat - 48) * 10 ^ ys.length + parseNat ys
              < (x.toNat - 48) * 10 ^ ys.length + parseNat xs :=
            calc (y.toNat - 48) * 10 ^ ys.length + parseNat ys
                < (y.toNat - 48) * 10 ^ ys.length + 10 ^ ys.length :=
                  Nat.add_lt_add_left hpy _
              _ = (y.toNat - 48 + 1) * 10 ^ ys.length := by ring
              _ ≤ (x.toNat - 48) * 10 ^ ys.length := Nat.mul_le_mul_right _ (by omega)
              _ ≤ (x.toNat - 48) * 10 ^ ys.length + parseNat xs := Nat.le_add_right _ _
          exact iff_of_false (by simp) (not_lt.mpr (le_of_lt hyx))

end ModuleSales

namespace ModuleSales

/-! ### Splitting and prefix lemmas -/

theorem strData_append (s t : String) : (s ++ t).data = s.data ++ t.data := by
  cases s; cases t; rfl

theorem foldl_dashStep_no_dash : ∀ (ds a : List Char), (∀ c ∈ ds, c ≠ '-') →
    List.foldl (fun acc c => if c = '-' then [] else acc ++ [c]) a ds = a ++ ds := by
  intro ds
  induction ds with
  | nil => intro a _; simp
  | cons c ds ih =>
    intro a h
    have hc : c ≠ '-' := h c (List.mem_cons_self _ _)
    rw [List.foldl_cons, if_neg hc, ih (a ++ [c]) (fun d hd => h d (List.mem_cons_of_mem _ hd))]
    simp

theorem afterLastDash_append_dash (xs ds : List Char) (h : ∀ c ∈ ds, c ≠ '-') :
    afterLastDash (xs ++ '-' :: ds) = ds := by
  unfold afterLastDash
  rw [show xs ++ '-' :: ds = (xs ++ ['-']) ++ ds from by simp]
  rw [List.foldl_append, List.foldl_append]
  rw [show List.foldl (fun acc c => if c = '-' then [] else acc ++ [c])
      (List.foldl (fun acc c => if c = '-' then [] else acc ++ [c]) [] xs) ['-']
      = [] from by simp]
  rw [foldl_dashStep_no_dash ds [] h]
  simp

/-- Parsing the trailing suffix of a well-formed formatted number recovers
the sequence value. -/
theorem parseTrailing_formatted (base : String) (k : ℕ) :
    parseTrailing (base ++ "-" ++ fmt4 k) = k := by
  unfold parseTrailing
  rw [strData_append, strData_append]
  rw [show ("-" : String).data = ['-'] from rfl]
  rw [List.append_assoc]
  rw [show ['-'] ++ (fmt4 k).data = '-' :: (fmt4 k).data from rfl]
  rw [afterLastDash_append_dash _ _ (fun c hc => isDigitCh_ne_dash (fmt4_digits k c hc))]
  exact fmt4_parse k

theorem startsWithB_append : ∀ (p r : List Char), startsWithB (p ++ r) p = true := by
  intro p
  induction p with
  | nil =>
    intro r
    cases r <;> rfl
  | cons c p ih =>
    intro r
    simp [startsWithB, ih]

theorem maxOfList_eq_none {l : List String} (h : maxOfList l = none) : l = [] := by
  match l with
  | [] => rfl
  | s :: rest => simp [maxOfList] at h

/-- The data of a formatted number splits off its day base. -/
theorem formatted_data (base : String) (k : ℕ) :
    (base ++ "-" ++ fmt4 k).data = (base ++ "-").data ++ (fmt4 k).data :=
  strData_append (base ++ "-") (fmt4 k)

theorem startsWithB_formatted (base : String) (k : ℕ) :
    startsWithB (base ++ "-" ++ fmt4 k).data base.data = true := by
  rw [formatted_data, strData_append,
    show ("-" : String).data = ['-'] from rfl, List.append_assoc]
  exact startsWithB_append _ _

end ModuleSales

namespace ModuleSales

/-- Claim C3: For every prefix (`SALE` or `PARK`), date key and set of stored
numbers, the generated document number is `"{prefix}-{dateKey}-{seq:04d}"`
(`fmt4 1 = "0001"`), where `seq = 1` when no stored number has prefix
`"{prefix}-{dateKey}"`, and otherwise `seq` is one plus the parsed trailing
numeric suffix of the lexicographically greatest stored number with that
prefix; in particular sequences for different days start independently
at `0001`. -/
theorem nextNumber_spec (existing : List String) (pfx dateKey : String) :
    fmt4 1 = "0001"
    ∧ ((∀ s ∈ existing, startsWithB s.data (pfx ++ "-" ++ dateKey).data = false) →
        nextNumber existing pfx dateKey = pfx ++ "-" ++ dateKey ++ "-" ++ fmt4 1)
    ∧ (∀ m ∈ existing.filter
          (fun s => startsWithB s.data (pfx ++ "-" ++ dateKey).data),
        (∀ s ∈ existing.filter
            (fun s => startsWithB s.data (pfx ++ "-" ++ dateKey).data),
          lexLt m.data s.data = false) →
        nextNumber existing pfx dateKey
          = pfx ++ "-" ++ dateKey ++ "-" ++ fmt4 (parseTrailing m + 1)) := by
  refine ⟨by decide, ?_, ?_⟩
  · intro h
    have hfil : existing.filter
        (fun s => startsWithB s.data (pfx ++ "-" ++ dateKey).data) = [] :=
      List.filter_eq_nil_iff.mpr (fun s hs => by rw [h s hs]; simp)
    unfold nextNumber
    rw [hfil]
    rfl
  · intro m hm hub
    have hmax : maxOfList (existing.filter
        (fun s => startsWithB s.data (pfx ++ "-" ++ dateKey).data)) = some m :=
      maxOfList_unique hm hub
    unfold nextNumber
    rw [hmax]

/-- Witness for C3: with `SALE-20250101-0007` stored (the maximum for the day)
alongside a ticket number, the next sale number is `SALE-20250101-0008`. -/
theorem nextNumber_spec_witness :
    ("SALE-20250101-0007" ∈ (["SALE-20250101-0007", "PARK-20250101-0002"].filter
        (fun s => startsWithB s.data (("SALE" ++ "-" ++ "20250101") : String).data))
      ∧ (∀ s ∈ (["SALE-20250101-0007", "PARK-20250101-0002"].filter
          (fun s => startsWithB s.data (("SALE" ++ "-" ++ "20250101") : String).data)),
          lexLt ("SALE-20250101-0007" : String).data s.data = false))
    ∧ nextNumber ["SALE-20250101-0007", "PARK-20250101-0002"] "SALE" "20250101"
        = "SALE" ++ "-" ++ "20250101" ++ "-" ++ fmt4 (parseTrailing "SALE-20250101-0007" + 1)
    ∧ "SALE" ++ "-" ++ "20250101" ++ "-" ++ fmt4 (parseTrailing "SALE-20250101-0007" + 1)
        = "SALE-20250101-0008" :=
  ⟨⟨by decide, by decide⟩,
    (nextNumber_spec ["SALE-20250101-0007", "PARK-20250101-0002"] "SALE" "20250101").2.2
      "SALE-20250101-0007" (by decide) (by decide),
    by decide⟩

end ModuleSales

namespace ModuleSales

/-! ## Concurrency model for numbering (`Sale.save`, src/models.py:209-225)

`Sale.save` first reads the stored numbers (`filter ... order_by ... first()`)
and only later writes the row.  Two concurrent savers are modelled as
two-phase callers over a shared store: a caller's first step takes a snapshot
of the store, its second step computes `nextNumber` from its own snapshot and
inserts the result. -/

/-- Shared store plus each caller's snapshot and output. -/
structure RaceState where
  db : List String
  snapA : Option (List String)
  outA : Option String
  snapB : Option (List String)
  outB : Option String
  deriving DecidableEq, Repr

/-- One scheduler step: run the next phase of caller A (`who = false`)
or caller B (`who = true`). -/
def raceStep (dateKey : String) (s : RaceState) (who : Bool) : RaceState :=
  if who then
    match s.snapB, s.outB with
    | none, _ => { s with snapB := some s.db }
    | some snap, none =>
      let n := nextNumber snap "SALE" dateKey
      { s with db := n :: s.db, outB := some n }
    | some _, some _ => s
  else
    match s.snapA, s.outA with
    | none, _ => { s with snapA := some s.db }
    | some snap, none =>
      let n := nextNumber snap "SALE" dateKey
      { s with db := n :: s.db, outA := some n }
    | some _, some _ => s

/-- Run a schedule of interleaved caller steps against an initially empty day. -/
def runRace (dateKey : String) (sched : List Bool) : RaceState :=
  sched.foldl (raceStep dateKey) ⟨[], none, none, none, none⟩

/-- Claim C4 (refuted; the spec itself flags this as a bug in the original):
under the serialized schedule A-read, A-write, B-read, B-write the two callers
obtain the distinct gap-free numbers 0001 and 0002, but under the interleaved
schedule A-read, B-read, A-write, B-write — both callers reading the last
number before either writes — both compute the same number
`SALE-20250101-0001`, so the issued values are not pairwise distinct (in the
real database the second insert collides with the uniqueness constraint
instead). -/
theorem nextNumber_race_duplicate :
    ((runRace "20250101" [false, false, true, true]).outA = some "SALE-20250101-0001"
      ∧ (runRace "20250101" [false, false, true, true]).outB = some "SALE-20250101-0002")
    ∧ (runRace "20250101" [false, true, false, true]).outA = some "SALE-20250101-0001"
    ∧ (runRace "20250101" [false, true, false, true]).outB = some "SALE-20250101-0001"
    ∧ (runRace "20250101" [false, true, false, true]).outA
        = (runRace "20250101" [false, true, false, true]).outB := by
  refine ⟨⟨by decide, by decide⟩, by decide, by decide, by decide⟩

end ModuleSales

namespace ModuleSales

/-! ## Issuance and deletion traces (Claim C9) -/

/-- An operation on the store of issued numbers: issue a new document number
(`Sale.save` with a blank number) or delete a stored record. -/
inductive NumOp where
  | issue : NumOp
  | removeRec : String → NumOp

/-- Apply one operation to `(stored numbers, issuance log)`. -/
def applyOp (dateKey : String) (st : List String × List String) (op : NumOp) :
    List String × List String :=
  match op with
  | .issue =>
    let n := nextNumber st.1 "SALE" dateKey
    (n :: st.1, st.2 ++ [n])
  | .removeRec s => (st.1.erase s, st.2)

/-- Run a trace of operations from an empty store. -/
def runOps (dateKey : String) (ops : List NumOp) : List String × List String :=
  ops.foldl (applyOp dateKey) ([], [])

/-- Counterexample to C9 as stated: issue 0001 and 0002, delete the record
holding 0002, issue again — the code re-issues `SALE-20250101-0002`, so the
issuance log contains a duplicate. -/
theorem deleted_number_reissued :
    (runOps "20250101"
        [.issue, .issue, .removeRec "SALE-20250101-0002", .issue]).2
      = ["SALE-20250101-0001", "SALE-20250101-0002", "SALE-20250101-0002"]
    ∧ ¬ (runOps "20250101"
        [.issue, .issue, .removeRec "SALE-20250101-0002", .issue]).2.Nodup := by
  refine ⟨by decide, by decide⟩

/-- Claim C9 (amended): the next number is computed from the greatest
*surviving* number only.  While every stored number with the day's prefix is a
well-formed `"{prefix}-{dateKey}-{seq:04d}"` with suffix at most 9999, the
freshly issued number differs from every surviving stored number — so a number
can only reappear after the record holding the day's greatest number is
deleted (as `deleted_number_reissued` shows the code then re-issues it). -/
theorem nextNumber_fresh (db : List String) (pfx dateKey : String)
    (h : ∀ s ∈ db, startsWithB s.data (pfx ++ "-" ++ dateKey).data = true →
      ∃ k, k ≤ 9999 ∧ s = pfx ++ "-" ++ dateKey ++ "-" ++ fmt4 k) :
    nextNumber db pfx dateKey ∉ db := by
  intro hmem
  rcases hcase : maxOfList (db.filter
      (fun s => startsWithB s.data (pfx ++ "-" ++ dateKey).data)) with _ | m
  · have hval : nextNumber db pfx dateKey = pfx ++ "-" ++ dateKey ++ "-" ++ fmt4 1 := by
      unfold nextNumber
      rw [hcase]
    have hmatch : nextNumber db pfx dateKey ∈ db.filter
        (fun s => startsWithB s.data (pfx ++ "-" ++ dateKey).data) :=
      List.mem_filter.mpr ⟨hmem, by rw [hval]; exact startsWithB_formatted _ 1⟩
    rw [maxOfList_eq_none hcase] at hmatch
    simp at hmatch
  · have hval : nextNumber db pfx dateKey
        = pfx ++ "-" ++ dateKey ++ "-" ++ fmt4 (parseTrailing m + 1) := by
      unfold nextNumber
      rw [hcase]
    have hmatch : nextNumber db pfx dateKey ∈ db.filter
        (fun s => startsWithB s.data (pfx ++ "-" ++ dateKey).data) :=
      List.mem_filter.mpr ⟨hmem, by
        rw [hval]; exact startsWithB_formatted _ (parseTrailing m + 1)⟩
    obtain ⟨hm_mem, hub⟩ := maxOfList_spec hcase
    obtain ⟨hm_db, hm_start⟩ := List.mem_filter.mp hm_mem
    obtain ⟨km, hkm, hmeq⟩ := h m hm_db (by simpa using hm_start)
    obtain ⟨kn, hkn, hneq⟩ := h _ hmem (by rw [hval]; exact startsWithB_formatted _ _)
    have hpm : parseTrailing m = km := by
      rw [hmeq]
      exact parseTrailing_formatted (pfx ++ "-" ++ dateKey) km
    have hkn_eq : kn = km + 1 := by
      have hcg := congrArg parseTrailing (hneq.symm.trans hval)
      rw [parseTrailing_formatted, parseTrailing_formatted, hpm] at hcg
      exact hcg
    have hkm' : km ≤ 9998 := by omega
    have hub_new : lexLt m.data (nextNumber db pfx dateKey).data = false :=
      hub _ hmatch
    have hsplit : lexLt m.data (nextNumber db pfx dateKey).data
        = lexLt (fmt4 km).data (fmt4 (km + 1)).data := by
      rw [hmeq, hval, hpm, formatted_data, formatted_data]
      exact lexLt_append_left _ _ _
    have hlex : lexLt (fmt4 km).data (fmt4 (km + 1)).data = true := by
      rw [lexLt_digits_iff _ _
        (by rw [fmt4_length (by omega), fmt4_length (by omega)])
        (fmt4_digits _) (fmt4_digits _)]
      rw [fmt4_parse, fmt4_parse]
      omega
    rw [hsplit, hlex] at hub_new
    exact absurd hub_new (by simp)

/-- Witness for the amended C9 at a store holding `SALE-20250101-0001`. -/
theorem nextNumber_fresh_witness :
    (∀ s ∈ ["SALE-20250101-0001"],
      startsWithB s.data (("SALE" ++ "-" ++ "20250101") : String).data = true →
      ∃ k, k ≤ 9999 ∧ s = "SALE" ++ "-" ++ "20250101" ++ "-" ++ fmt4 k)
    ∧ nextNumber ["SALE-20250101-0001"] "SALE" "20250101" ∉ ["SALE-20250101-0001"] := by
  have hh : ∀ s ∈ ["SALE-20250101-0001"],
      startsWithB s.data (("SALE" ++ "-" ++ "20250101") : String).data = true →
      ∃ k, k ≤ 9999 ∧ s = "SALE" ++ "-" ++ "20250101" ++ "-" ++ fmt4 k := by
    intro s hs _
    simp only [List.mem_singleton] at hs
    exact ⟨1, by norm_num, by rw [hs]; decide⟩
  exact ⟨hh, nextNumber_fresh _ _ _ hh⟩

end ModuleSales

namespace ModuleSales

/-! ## Sale aggregation: `Sale.calculate_totals` (src/models.py:227-267) -/

/-- The stored per-line fields that `calculate_totals` reads. -/
structure SaleItemRec where
  tax_rate : ℚ
  net_amount : ℚ
  tax_amount : ℚ
  line_total : ℚ
  deriving DecidableEq, Repr

/-- One `defaultdict` update of the tax breakdown: add the line's net and tax
to the entry for its rate, creating a fresh `{base: 0, tax: 0}` entry first
when the rate is new. -/
def addTax (bd : List (ℚ × ℚ × ℚ)) (rate base tax : ℚ) : List (ℚ × ℚ × ℚ) :=
  match bd with
  | [] => [(rate, base, tax)]
  | (r, b, t) :: rest =>
    if r = rate then (r, b + base, t + tax) :: rest
    else (r, b, t) :: addTax rest rate base tax

/-- The sale-level fields written by `calculate_totals`. -/
structure SaleTotals where
  subtotal : ℚ
  tax_amount : ℚ
  tax_breakdown : List (ℚ × ℚ × ℚ)
  total : ℚ
  change_given : ℚ
  deriving DecidableEq, Repr

/-- `Sale.calculate_totals`: sum net/tax/gross over the items, aggregate the
breakdown by tax rate, set `total = gross - discount_amount` and compute the
change (src/models.py:227-267; the stored breakdown values are aggregated as
exact decimals before the final `float(...)` serialization). -/
def calculate_totals (items : List SaleItemRec) (discount_amount amount_paid : ℚ) :
    SaleTotals :=
  { subtotal := (items.map (·.net_amount)).sum
    tax_amount := (items.map (·.tax_amount)).sum
    tax_breakdown :=
      items.foldl (fun bd i => addTax bd i.tax_rate i.net_amount i.tax_amount) []
    total := (items.map (·.line_total)).sum - discount_amount
    change_given :=
      if amount_paid > (items.map (·.line_total)).sum - discount_amount then
        amount_paid - ((items.map (·.line_total)).sum - discount_amount)
      else 0 }

/-- Sum of the `base` components of a breakdown. -/
def breakdownBaseSum (bd : List (ℚ × ℚ × ℚ)) : ℚ := (bd.map (fun e => e.2.1)).sum

/-- Sum of the `tax` components of a breakdown. -/
def breakdownTaxSum (bd : List (ℚ × ℚ × ℚ)) : ℚ := (bd.map (fun e => e.2.2)).sum

theorem addTax_baseSum (bd : List (ℚ × ℚ × ℚ)) (rate base tax : ℚ) :
    breakdownBaseSum (addTax bd rate base tax) = breakdownBaseSum bd + base := by
  induction bd with
  | nil => simp [addTax, breakdownBaseSum]
  | cons e rest ih =>
    obtain ⟨r, b, t⟩ := e
    by_cases h : r = rate
    · simp [addTax, if_pos h, breakdownBaseSum]
      ring
    · simp only [addTax, if_neg h]
      simp only [breakdownBaseSum, List.map_cons, List.sum_cons] at ih ⊢
      rw [ih]
      ring

theorem addTax_taxSum (bd : List (ℚ × ℚ × ℚ)) (rate base tax : ℚ) :
    breakdownTaxSum (addTax bd rate base tax) = breakdownTaxSum bd + tax := by
  induction bd with
  | nil => simp [addTax, breakdownTaxSum]
  | cons e rest ih =>
    obtain ⟨r, b, t⟩ := e
    by_cases h : r = rate
    · simp [addTax, if_pos h, breakdownTaxSum]
      ring
    · simp only [addTax, if_neg h]
      simp only [breakdownTaxSum, List.map_cons, List.sum_cons] at ih ⊢
      rw [ih]
      ring

theorem foldl_addTax_baseSum : ∀ (items : List SaleItemRec) (bd : List (ℚ × ℚ × ℚ)),
    breakdownBaseSum
        (items.foldl (fun bd i => addTax bd i.tax_rate i.net_amount i.tax_amount) bd)
      = breakdownBaseSum bd + (items.map (·.net_amount)).sum := by
  intro items
  induction items with
  | nil => intro bd; simp
  | cons i items ih =>
    intro bd
    rw [List.foldl_cons, ih, addTax_baseSum]
    simp
    ring

theorem foldl_addTax_taxSum : ∀ (items : List SaleItemRec) (bd : List (ℚ × ℚ × ℚ)),
    breakdownTaxSum
        (items.foldl (fun bd i => addTax bd i.tax_rate i.net_amount i.tax_amount) bd)
      = breakdownTaxSum bd + (items.map (·.tax_amount)).sum := by
  intro items
  induction items with
  | nil => intro bd; simp
  | cons i items ih =>
    intro bd
    rw [List.foldl_cons, ih, addTax_taxSum]
    simp
    ring

end ModuleSales

namespace ModuleSales

/-- Claim C6: For every sale whose totals were calculated from its line items,
the aggregated tax breakdown reconstructs the totals: the bases summed over
all rates equal the sale's `subtotal` and the tax parts summed over all rates
equal the sale's `tax_amount`. -/
theorem tax_breakdown_reconstructs_totals (items : List SaleItemRec)
    (discount_amount amount_paid : ℚ) :
    breakdownBaseSum (calculate_totals items discount_amount amount_paid).tax_breakdown
      = (calculate_totals items discount_amount amount_paid).subtotal
    ∧ breakdownTaxSum (calculate_totals items discount_amount amount_paid).tax_breakdown
      = (calculate_totals items discount_amount amount_paid).tax_amount := by
  constructor
  · show breakdownBaseSum
        (items.foldl (fun bd i => addTax bd i.tax_rate i.net_amount i.tax_amount) [])
      = (items.map (·.net_amount)).sum
    rw [foldl_addTax_baseSum]
    simp [breakdownBaseSum]
  · show breakdownTaxSum
        (items.foldl (fun bd i => addTax bd i.tax_rate i.net_amount i.tax_amount) [])
      = (items.map (·.tax_amount)).sum
    rw [foldl_addTax_taxSum]
    simp [breakdownTaxSum]

/-- Counterexample to C8 as stated: one line with `line_total = 5.00` and a
sale-level discount of 10.00 — `calculate_totals` stores total `-5.00` without
any rejection or clamping. -/
theorem calculate_totals_stores_negative_total :
    (calculate_totals [⟨21, 5, 0, 5⟩] 10 0).total = -5
    ∧ (calculate_totals [⟨21, 5, 0, 5⟩] 10 0).total < 0 := by
  refine ⟨by norm_num [calculate_totals], by norm_num [calculate_totals]⟩

/-- Claim C8 (amended): aggregation always stores
`total = Σ lineTotal - discountAmount`, with no non-negativity check: a
discount amount exceeding the gross simply drives the stored total negative
(no `InvalidDiscount` path exists). -/
theorem calculate_totals_total_formula (items : List SaleItemRec)
    (discount_amount amount_paid : ℚ) :
    (calculate_totals items discount_amount amount_paid).total
      = (items.map (·.line_total)).sum - discount_amount := rfl

end ModuleSales

namespace ModuleSales

/-! ## Cash drawer: `CashRegister.calculate_expected_amount` and
`close_register` (src/models.py:612-643) -/

/-- A cash movement attached to a register session
(`type` is `"in"` or `"out"`). -/
structure CashMovementRec where
  type : String
  amount : ℚ
  deriving DecidableEq, Repr

/-- A sale attributed to a register session, as read by the reconciler. -/
structure SaleRec where
  payment_method : String
  status : String
  total : ℚ
  deriving DecidableEq, Repr

/-- The `CashRegister` fields touched by closing
(`closed_at` is an abstract timestamp). -/
structure CashRegisterRec where
  status : String
  initial_amount : ℚ
  final_amount : Option ℚ
  expected_amount : Option ℚ
  difference : Option ℚ
  closing_notes : String
  closed_at : Option ℕ
  deriving DecidableEq, Repr

/-- `CashRegister.calculate_expected_amount` (src/models.py:612-629):
`initial + cash_sales + movements_in - movements_out`, where `cash_sales`
filters the attributed sales by `payment_method == 'cash'` only. -/
def calculate_expected_amount (initial_amount : ℚ) (movements : List CashMovementRec)
    (sales : List SaleRec) : ℚ :=
  initial_amount
    + ((sales.filter (fun s => s.payment_method == "cash")).map (·.total)).sum
    + ((movements.filter (fun m => m.type == "in")).map (·.amount)).sum
    - ((movements.filter (fun m => m.type == "out")).map (·.amount)).sum

/-- The expected-amount formula as Claim C5 words it: only *completed*
cash-paid sales contribute.  Stated for comparison against the code's
`calculate_expected_amount`. -/
def expectedAmountClaimed (initial_amount : ℚ) (movements : List CashMovementRec)
    (sales : List SaleRec) : ℚ :=
  initial_amount
    + ((sales.filter
        (fun s => s.payment_method == "cash" && s.status == "completed")).map
          (·.total)).sum
    + ((movements.filter (fun m => m.type == "in")).map (·.amount)).sum
    - ((movements.filter (fun m => m.type == "out")).map (·.amount)).sum

/-- `CashRegister.close_register` (src/models.py:631-643): unconditionally
store the counted amount, notes and close time, set status to closed,
recompute the expected amount and store `difference = final - expected`
(the `is not None` guard in the source is always true because
`calculate_expected_amount` has just assigned the field). -/
def close_register (reg : CashRegisterRec) (movements : List CashMovementRec)
    (sales : List SaleRec) (final_amount : ℚ) (closing_notes : String) (now : ℕ) :
    CashRegisterRec :=
  { reg with
    final_amount := some final_amount
    closing_notes := closing_notes
    closed_at := some now
    status := "closed"
    expected_amount := some (calculate_expected_amount reg.initial_amount movements sales)
    difference := some (final_amount
      - calculate_expected_amount reg.initial_amount movements sales) }

end ModuleSales

namespace ModuleSales

/-- Counterexample to C5 as stated: a *cancelled* cash sale of 50.00 attributed
to a session with opening float 100.00 and no movements — the code computes
expected 150.00, while the claim's formula (completed cash sales only)
gives 100.00. -/
theorem expected_counts_noncompleted_cash_sales :
    calculate_expected_amount 100 [] [⟨"cash", "cancelled", 50⟩] = 150
    ∧ expectedAmountClaimed 100 [] [⟨"cash", "cancelled", 50⟩] = 100
    ∧ calculate_expected_amount 100 [] [⟨"cash", "cancelled", 50⟩]
        ≠ expectedAmountClaimed 100 [] [⟨"cash", "cancelled", 50⟩] := by
  refine ⟨?h1, ?h2, ?h3⟩
  case h1 =>
    simp [calculate_expected_amount]
    norm_num
  case h2 => simp [expectedAmountClaimed]
  case h3 => simp [calculate_expected_amount, expectedAmountClaimed]

/-- Claim C5 (amended): the expected amount equals the opening float plus the
sum of `in` movements minus the sum of `out` movements plus the totals of all
cash-paid sales attributed to the session *regardless of status* (non-cash
sales contribute nothing); closing with a counted amount stores
`difference = counted - expected`; and a session with no movements and no
sales reconciles to its opening float. -/
theorem expected_amount_formula (initial : ℚ) (movements : List CashMovementRec)
    (sales : List SaleRec) (reg : CashRegisterRec) (counted : ℚ)
    (notes : String) (now : ℕ) :
    calculate_expected_amount initial movements sales
      = initial
        + ((sales.filter (fun s => s.payment_method == "cash")).map (·.total)).sum
        + ((movements.filter (fun m => m.type == "in")).map (·.amount)).sum
        - ((movements.filter (fun m => m.type == "out")).map (·.amount)).sum
    ∧ (close_register reg movements sales counted notes now).difference
        = some (counted - calculate_expected_amount reg.initial_amount movements sales)
    ∧ calculate_expected_amount initial [] [] = initial := by
  refine ⟨rfl, rfl, ?_⟩
  show initial + 0 + 0 - 0 = initial
  ring

/-- The register produced by closing an open session with a count of 120.00. -/
def sampleClosedRegister : CashRegisterRec :=
  close_register ⟨"open", 100, none, none, none, "", none⟩ [] [] 120 "" 1

/-- Counterexample to C7 as stated: `close_register` has no already-closed
guard — re-closing a closed session with a different count succeeds and
overwrites the final amount, the difference and the close timestamp instead
of failing with `AlreadyClosed` and leaving them unchanged. -/
theorem close_register_reclose_overwrites :
    sampleClosedRegister.status = "closed"
    ∧ (close_register sampleClosedRegister [] [] 80 "recount" 2).final_amount = some 80
    ∧ (close_register sampleClosedRegister [] [] 80 "recount" 2).final_amount
        ≠ sampleClosedRegister.final_amount
    ∧ (close_register sampleClosedRegister [] [] 80 "recount" 2).difference
        ≠ sampleClosedRegister.difference
    ∧ (close_register sampleClosedRegister [] [] 80 "recount" 2).closed_at
        ≠ sampleClosedRegister.closed_at := by
  refine ⟨rfl, rfl, ?_, ?_, ?_⟩
  · norm_num [sampleClosedRegister, close_register]
  · norm_num [sampleClosedRegister, close_register, calculate_expected_amount]
  · norm_num [sampleClosedRegister, close_register]

/-- Claim C7 (amended): `close_register` unconditionally sets the status to
closed (it never reopens a session), stamps the new close time and overwrites
the final amount, expected amount and difference from the new count — calling
it on an already-closed session does not fail and does not preserve the
previously stored values. -/
theorem close_register_always_closes (reg : CashRegisterRec)
    (movements : List CashMovementRec) (sales : List SaleRec)
    (counted : ℚ) (notes : String) (now : ℕ) :
    (close_register reg movements sales counted notes now).status = "closed"
    ∧ (close_register reg movements sales counted notes now).final_amount = some counted
    ∧ (close_register reg movements sales counted notes now).expected_amount
        = some (calculate_expected_amount reg.initial_amount movements sales)
    ∧ (close_register reg movements sales counted notes now).difference
        = some (counted - calculate_expected_amount reg.initial_amount movements sales)
    ∧ (close_register reg movements sales counted notes now).closed_at = some now
    ∧ (close_register reg movements sales counted notes now).closing_notes = notes :=
  ⟨rfl, rfl, rfl, rfl, rfl, rfl⟩

end ModuleSales

namespace ModuleSales

/-! ## Stock decrement in `complete_sale` (src/views.py:156-243) -/

/-- Python `int(...)`: truncation toward zero. -/
def intTrunc (q : ℚ) : ℤ := if 0 ≤ q then ⌊q⌋ else ⌈q⌉

/-- The per-line effect of the `complete_sale` view (src/views.py:188-204):
the created `SaleItem` is computed by `SaleItem.save` from the full decimal
quantity, and for non-service products the stock is decremented by
`int(quantity)`. -/
def processLine (is_service : Bool) (stock : ℤ) (tax_included : Bool)
    (price quantity discount_percent tax_rate : ℚ) : LineResult × ℤ :=
  (saveItem tax_included price quantity discount_percent tax_rate,
   if is_service then stock else stock - intTrunc quantity)

/-- Claim C10: in finalize-sale, a non-service line decrements the product's
stock by `int(quantity)` — the quantity truncated toward zero, not the decimal
quantity: quantity 0.5 decrements stock by 0 and quantity 1.9 by 1 — while the
line's monetary fields are still computed by `SaleItem.save` from the full
decimal quantity; service lines never change stock. -/
theorem complete_sale_stock_truncates (stock : ℤ) (ti : Bool)
    (price discount_percent tax_rate : ℚ) :
    (∀ q : ℚ, (processLine false stock ti price q discount_percent tax_rate).2
        = stock - intTrunc q)
    ∧ (∀ q : ℚ, (processLine true stock ti price q discount_percent tax_rate).2 = stock)
    ∧ (∀ q : ℚ, (processLine false stock ti price q discount_percent tax_rate).1
        = saveItem ti price q discount_percent tax_rate)
    ∧ (processLine false stock ti price (1/2) discount_percent tax_rate).2 = stock
    ∧ (processLine false stock ti price (19/10) discount_percent tax_rate).2
        = stock - 1 := by
  refine ⟨fun q => rfl, fun q => rfl, fun q => rfl, ?_, ?_⟩
  · show stock - intTrunc (1/2) = stock
    rw [show intTrunc (1/2 : ℚ) = 0 from by norm_num [intTrunc]]
    ring
  · show stock - intTrunc (19/10) = stock - 1
    rw [show intTrunc (19/10 : ℚ) = 1 from by norm_num [intTrunc]]

end ModuleSales
